import Mathlib

/-!
Verification development for the upload-charm-docs reconciliation and migration
engine.  The forum-client layer (`src/discourse.py`) is embedded directly from
the source.  The executor, differ and migrator modules are not shipped in the
sources (only their unit and integration tests are), so they are modelled from
the specification, with behavior pinned by the tests; every such definition is
marked `Modelled from the spec:` in its doc comment.
-/

namespace UploadCharmDocs

/-- A displayable pair of a title and an optional link; the link is absent for
group rows (types_.Navlink). -/
structure Navlink where
  title : String
  link : Option String
deriving DecidableEq, Repr

/-- A row of the navigation table: level, table path and navlink
(types_.TableRow). -/
structure TableRow where
  level : Int
  path : String
  navlink : Navlink
deriving DecidableEq, Repr

/-- A table row is a group row exactly when its navlink carries no link. -/
def TableRow.isGroup (r : TableRow) : Bool := r.navlink.link.isNone

/-- The change in navlink carried by an update action (types_.NavlinkChange). -/
structure NavlinkChange where
  old : Navlink
  new : Navlink
deriving DecidableEq, Repr

/-- The change in content carried by an update action (types_.ContentChange). -/
structure ContentChange where
  old : Option String
  new : Option String
deriving DecidableEq, Repr

/-- Modelled from the spec: the typed actions emitted by the differ (§4.4);
src/types_.py is not in the sources.  CREATE carries no old state, DELETE no
new state, UPDATE old and new for both navlink and content, NOOP the unchanged
row. -/
inductive Action where
  | create (level : Int) (path : String) (navlinkTitle : String) (content : Option String)
  | noop (level : Int) (path : String) (navlink : Navlink) (content : Option String)
  | update (level : Int) (path : String) (navlinkChange : NavlinkChange)
      (contentChange : ContentChange)
  | delete (level : Int) (path : String) (navlink : Navlink) (content : Option String)
deriving DecidableEq, Repr

/-- Whether an action is a DELETE. -/
def Action.isDelete : Action → Bool
  | .delete _ _ _ _ => true
  | _ => false

/-- Whether an action is a NOOP. -/
def Action.isNoop : Action → Bool
  | .noop _ _ _ _ => true
  | _ => false

/-- The result tag of an action report (types_.ActionResult). -/
inductive ActionResult where
  | success
  | skipped
  | fail
deriving DecidableEq, Repr

/-- A per-action report: the affected table row, result tag and optional reason
(types_.ActionReport, with the location field omitted as the claims do not
mention it for reconcile actions). -/
structure ActionReport where
  tableRow : Option TableRow
  result : ActionResult
  reason : Option String
deriving DecidableEq, Repr

/-- A mutating call to the forum client (the three mutating operations of the
client contract, §6). -/
inductive ClientCall where
  | createTopic (title content : String)
  | updateTopic (url content : String)
  | deleteTopic (url : String)
deriving DecidableEq, Repr

/-- Whether a client call is a delete_topic call. -/
def ClientCall.isDelete : ClientCall → Bool
  | .deleteTopic _ => true
  | _ => false

/-- The outcome of executing one action: the report, the post-execution table
row fed to the index updater (none for deletes, whose rows are omitted), the
post-execution topic content, and the mutating client calls issued. -/
structure ExecOutcome where
  report : ActionReport
  row : Option TableRow
  content : Option String
  calls : List ClientCall
deriving DecidableEq, Repr

/-- Modelled from the spec: the executor's draft sentinel link
(action.DRAFT_NAVLINK_LINK; src/action.py is not in the sources).  The spec
fixes only that it is a sentinel value standing in for the not-created URL. -/
def DRAFT_NAVLINK_LINK : String := "<created due to draft mode>"

/-- Modelled from the spec: the error raised by the executor when a
content-changed update carries no new content (exceptions.ActionError). -/
def ACTION_ERROR_NULL_CONTENT : String :=
  "action error: content change update must have new content"

/-- Modelled from the spec: the executor for a single action (§4.5);
src/action.py is not in the sources, behavior pinned by the table of §4.5 and
tests/unit/test_action.py.  The forum client is abstracted: `createUrl` models
the URL create_topic returns, and mutating client calls are recorded in the
outcome's trace.  An ActionError aborts the run via `Except.error`. -/
def executeOne (draftMode deletePages : Bool) (createUrl : String → String → String) :
    Action → Except String ExecOutcome
  | .create level path title content =>
    if draftMode then
      let link := content.map (fun _ => DRAFT_NAVLINK_LINK)
      .ok ⟨⟨some ⟨level, path, ⟨title, link⟩⟩, .skipped, none⟩,
        some ⟨level, path, ⟨title, link⟩⟩, content, []⟩
    else
      match content with
      | none =>
        .ok ⟨⟨some ⟨level, path, ⟨title, none⟩⟩, .success, none⟩,
          some ⟨level, path, ⟨title, none⟩⟩, none, []⟩
      | some c =>
        .ok ⟨⟨some ⟨level, path, ⟨title, some (createUrl title c)⟩⟩, .success, none⟩,
          some ⟨level, path, ⟨title, some (createUrl title c)⟩⟩, some c,
          [.createTopic title c]⟩
  | .noop level path navlink content =>
    .ok ⟨⟨some ⟨level, path, navlink⟩, .success, some "noop"⟩,
      some ⟨level, path, navlink⟩, content, []⟩
  | .update level path navlinkChange contentChange =>
    if draftMode then
      .ok ⟨⟨some ⟨level, path, navlinkChange.new⟩, .skipped, none⟩,
        some ⟨level, path, navlinkChange.new⟩, contentChange.new, []⟩
    else
      match navlinkChange.new.link with
      | none =>
        .ok ⟨⟨some ⟨level, path, navlinkChange.new⟩, .skipped, none⟩,
          some ⟨level, path, navlinkChange.new⟩, contentChange.new, []⟩
      | some url =>
        if contentChange.old = contentChange.new then
          .ok ⟨⟨some ⟨level, path, navlinkChange.new⟩, .skipped, none⟩,
            some ⟨level, path, navlinkChange.new⟩, contentChange.new, []⟩
        else
          match contentChange.new with
          | none => .error ACTION_ERROR_NULL_CONTENT
          | some c =>
            .ok ⟨⟨some ⟨level, path, navlinkChange.new⟩, .success, none⟩,
              some ⟨level, path, navlinkChange.new⟩, some c, [.updateTopic url c]⟩
  | .delete level path navlink _content =>
    if draftMode then
      .ok ⟨⟨some ⟨level, path, navlink⟩, .skipped, none⟩, none, none, []⟩
    else
      match navlink.link with
      | none => .ok ⟨⟨some ⟨level, path, navlink⟩, .skipped, none⟩, none, none, []⟩
      | some url =>
        if deletePages then
          .ok ⟨⟨some ⟨level, path, navlink⟩, .success, none⟩, none, none,
            [.deleteTopic url]⟩
        else
          .ok ⟨⟨some ⟨level, path, navlink⟩, .skipped, none⟩, none, none, []⟩

/-- Modelled from the spec: the executor over an ordered action plan (§4.5);
actions run in emitted order, an ActionError aborts the run. -/
def runAll (draftMode deletePages : Bool) (createUrl : String → String → String) :
    List Action → Except String (List ExecOutcome)
  | [] => .ok []
  | a :: rest =>
    match executeOne draftMode deletePages createUrl a with
    | .error e => .error e
    | .ok o =>
      match runAll draftMode deletePages createUrl rest with
      | .error e => .error e
      | .ok os => .ok (o :: os)

/-- What draft mode must do with one action (§4.5 column draft_mode=true):
CREATE, UPDATE and DELETE are reported skipped, and a CREATE for a document
yields a row whose navlink link is the draft sentinel. -/
def dryOutcomeOk : Action → ExecOutcome → Bool
  | .create _ _ _ content, o =>
    o.report.result == .skipped &&
      (content.isNone ||
        match o.row with
        | some r => r.navlink.link == some DRAFT_NAVLINK_LINK
        | none => false)
  | .noop _ _ _ _, _ => true
  | .update _ _ _ _, o => o.report.result == .skipped
  | .delete _ _ _ _, o => o.report.result == .skipped

theorem executeOne_draft (deletePages : Bool) (createUrl : String → String → String)
    (a : Action) :
    ∃ o, executeOne true deletePages createUrl a = .ok o ∧ o.calls = [] ∧
      dryOutcomeOk a o = true := by
  cases a with
  | create level path title content =>
    cases content <;> exact ⟨_, rfl, rfl, by simp [dryOutcomeOk]⟩
  | noop level path navlink content => exact ⟨_, rfl, rfl, rfl⟩
  | update level path navlinkChange contentChange => exact ⟨_, rfl, rfl, rfl⟩
  | delete level path navlink content => exact ⟨_, rfl, rfl, rfl⟩

/-- C1: In a dry run (draft mode), the executor issues no mutating forum-client
call for any action, reports every CREATE, UPDATE and DELETE action as skipped,
and a CREATE for a document yields a table row whose navlink link is the draft
sentinel. -/
theorem dry_run_no_mutating_calls (deletePages : Bool)
    (createUrl : String → String → String) (acts : List Action) :
    ∃ outs, runAll true deletePages createUrl acts = .ok outs ∧
      outs.length = acts.length ∧
      (outs.all fun o => o.calls.isEmpty) = true ∧
      ((acts.zip outs).all fun p => dryOutcomeOk p.1 p.2) = true := by
  induction acts with
  | nil => exact ⟨[], rfl, rfl, rfl, rfl⟩
  | cons a rest ih =>
    obtain ⟨o, ho, hcalls, hdry⟩ := executeOne_draft deletePages createUrl a
    obtain ⟨outs, houts, hlen, hall, hzip⟩ := ih
    refine ⟨o :: outs, ?_, by simp [hlen], ?_, ?_⟩
    · simp [runAll, ho, houts]
    · simp_all [List.all_cons, List.isEmpty_iff]
    · simp_all [List.zip_cons_cons, List.all_cons]

theorem executeOne_no_delete_call (deletePages : Bool)
    (createUrl : String → String → String) (a : Action) (o : ExecOutcome)
    (h : executeOne false deletePages createUrl a = .ok o)
    (hdp : deletePages = false) :
    (o.calls.all fun c => !c.isDelete) = true ∧
      (a.isDelete = true → o.row = none) := by
  subst hdp
  cases a with
  | create level path title content =>
    cases content <;> simp_all [executeOne] <;> simp [← h, ClientCall.isDelete, Action.isDelete]
  | noop level path navlink content =>
    simp_all [executeOne] ; simp [← h, Action.isDelete]
  | update level path navlinkChange contentChange =>
    rcases hlink : navlinkChange.new.link with _ | url
    · simp_all [executeOne] ; simp [← h, Action.isDelete]
    · by_cases hc : contentChange.old = contentChange.new
      · simp_all [executeOne] ; simp [← h, Action.isDelete]
      · rcases hnew : contentChange.new with _ | c <;> simp_all [executeOne]
        simp [← h, ClientCall.isDelete, Action.isDelete]
  | delete level path navlink content =>
    rcases hlink : navlink.link with _ | url <;> simp_all [executeOne] <;>
      simp [← h, Action.isDelete]

/-- C4: With dry_run=false and delete_pages=false, the executor issues no
delete_topic call for any action, and every DELETE action (a row present only
remotely) contributes no post-execution row, so the regenerated index table
omits it. -/
theorem delete_pages_false_no_delete_topic
    (createUrl : String → String → String) (acts : List Action)
    (outs : List ExecOutcome)
    (hok : runAll false false createUrl acts = .ok outs) :
    (outs.all fun o => o.calls.all fun c => !c.isDelete) = true ∧
      outs.length = acts.length ∧
      ((acts.zip outs).all fun p => !p.1.isDelete || p.2.row.isNone) = true := by
  induction acts generalizing outs with
  | nil =>
    cases hok
    exact ⟨rfl, rfl, rfl⟩
  | cons a rest ih =>
    rcases he : executeOne false false createUrl a with e | o <;>
      rw [runAll, he] at hok
    · cases hok
    · rcases hr : runAll false false createUrl rest with e | os <;> rw [hr] at hok
      · cases hok
      · cases hok
        obtain ⟨hcalls, hrow⟩ := executeOne_no_delete_call false createUrl a o he rfl
        obtain ⟨ih1, ih2, ih3⟩ := ih os hr
        refine ⟨by simp [List.all_cons, hcalls, ih1], by simp [ih2], ?_⟩
        simp only [List.zip_cons_cons, List.all_cons, ih3, Bool.and_true]
        cases hd : a.isDelete with
        | false => rfl
        | true => simp [hrow hd]

theorem delete_pages_false_no_delete_topic_witness :
    ((([(Action.delete 1 "path 1" ⟨"title 1", some "link 1"⟩ (some "content 1"))].zip
        [(⟨⟨some ⟨1, "path 1", ⟨"title 1", some "link 1"⟩⟩, .skipped, none⟩, none, none,
          []⟩ : ExecOutcome)]).all
      fun p => !p.1.isDelete || p.2.row.isNone) = true) :=
  (delete_pages_false_no_delete_topic (fun _ _ => "url 1")
    [Action.delete 1 "path 1" ⟨"title 1", some "link 1"⟩ (some "content 1")]
    [⟨⟨some ⟨1, "path 1", ⟨"title 1", some "link 1"⟩⟩, .skipped, none⟩, none, none, []⟩]
    rfl).2.2

/-- C8: A document UPDATE action executed with dry_run=false whose content
changed (the old content differs from the new) and whose new content is null
makes the executor fail with an action error instead of calling update_topic:
the run aborts with `Except.error`, so no outcome and no client call is
produced. -/
theorem update_null_new_content_action_error (deletePages : Bool)
    (createUrl : String → String → String) (level : Int) (path : String)
    (oldNav newNav : Navlink) (url : String) (oldContent : Option String)
    (hlink : newNav.link = some url) (hchanged : oldContent ≠ none) :
    executeOne false deletePages createUrl
        (.update level path ⟨oldNav, newNav⟩ ⟨oldContent, none⟩) =
      .error ACTION_ERROR_NULL_CONTENT := by
  simp [executeOne, hlink, hchanged]

theorem update_null_new_content_action_error_witness :
    executeOne false true (fun _ _ => "url 1")
        (.update 1 "path 1" ⟨⟨"title 1", some "link 1"⟩, ⟨"title 2", some "link 1"⟩⟩
          ⟨some "content 1", none⟩) =
      .error ACTION_ERROR_NULL_CONTENT :=
  update_null_new_content_action_error true (fun _ _ => "url 1") 1 "path 1"
    ⟨"title 1", some "link 1"⟩ ⟨"title 2", some "link 1"⟩ "link 1" (some "content 1")
    rfl (by decide)

/-- Modelled from the spec: a row produced by the local walker (§4.2, §4.4):
level, table path, derived title and file content (none for groups);
src/reconcile.py and the walker are not in the sources. -/
structure LocalRow where
  level : Int
  path : String
  title : String
  content : Option String
deriving DecidableEq, Repr

/-- Modelled from the spec: a remote row as the differ sees it: the table row
parsed from the index topic together with the topic content fetched for the
comparison (§4.4). -/
structure RemoteRow where
  row : TableRow
  content : Option String
deriving DecidableEq, Repr

/-- The remote index keyed by table path: the first remote row whose path
matches. -/
def remoteLookup (remote : List RemoteRow) (p : String) : Option RemoteRow :=
  remote.find? fun r => r.row.path == p

/-- Modelled from the spec: the differ's action for one local row (§4.4):
CREATE when the path is only local; NOOP when navlink, content and level are
unchanged; UPDATE otherwise (a level change alone is treated as a navlink
update, §4.4 tie-break).  The new navlink keeps the remote link and takes the
local title. -/
def calculateAction (remote : List RemoteRow) (l : LocalRow) : Action :=
  match remoteLookup remote l.path with
  | none => .create l.level l.path l.title l.content
  | some r =>
    if (⟨l.title, r.row.navlink.link⟩ : Navlink) = r.row.navlink ∧
        l.content = r.content ∧ l.level = r.row.level then
      .noop l.level l.path r.row.navlink l.content
    else
      .update l.level l.path ⟨r.row.navlink, ⟨l.title, r.row.navlink.link⟩⟩
        ⟨r.content, l.content⟩

/-- Modelled from the spec: the differ over both indexes (§4.4): one action per
local row in local traversal order, then a DELETE for every remote-only row,
appended in reverse remote order. -/
def diff (localRows : List LocalRow) (remote : List RemoteRow) : List Action :=
  localRows.map (calculateAction remote) ++
    ((remote.filter fun r => !(localRows.any fun l => l.path == r.row.path)).reverse.map
      fun r => .delete r.row.level r.row.path r.row.navlink r.content)

/-- The remote state described by the index after a run: the post-execution
rows (deleted rows are omitted) with the post-execution topic contents. -/
def postRemote (outs : List ExecOutcome) : List RemoteRow :=
  outs.filterMap fun o => o.row.map fun r => RemoteRow.mk r o.content

/-- A remote row mirrors a local row when path, level, title and content all
agree. -/
def mirrors (l : LocalRow) (r : RemoteRow) : Prop :=
  r.row.path = l.path ∧ r.row.level = l.level ∧
    r.row.navlink.title = l.title ∧ r.content = l.content

theorem executeOne_calculateAction (deletePages : Bool)
    (createUrl : String → String → String) (remote : List RemoteRow)
    (l : LocalRow) (o : ExecOutcome)
    (h : executeOne false deletePages createUrl (calculateAction remote l) = .ok o) :
    ∃ r, o.row = some r ∧ mirrors l ⟨r, o.content⟩ := by
  unfold calculateAction at h
  rcases hfind : remoteLookup remote l.path with _ | rr <;> rw [hfind] at h
  · rcases hc : l.content with _ | c <;> rw [hc] at h <;>
      simp only [executeOne, Bool.false_eq_true, if_false, Except.ok.injEq] at h <;>
      subst h
    · exact ⟨_, rfl, rfl, rfl, rfl, hc.symm⟩
    · exact ⟨_, rfl, rfl, rfl, rfl, hc.symm⟩
  · simp only [] at h
    by_cases hcond :
      (⟨l.title, rr.row.navlink.link⟩ : Navlink) = rr.row.navlink ∧
        l.content = rr.content ∧ l.level = rr.row.level
    · rw [if_pos hcond] at h
      simp only [executeOne, Except.ok.injEq] at h
      subst h
      exact ⟨_, rfl, rfl, rfl, by rw [← hcond.1], rfl⟩
    · rw [if_neg hcond] at h
      rw [executeOne] at h
      rcases hlink : rr.row.navlink.link with _ | url <;> rw [hlink] at h <;>
        simp only [Bool.false_eq_true, if_false] at h
      · simp only [Except.ok.injEq] at h
        subst h
        exact ⟨_, rfl, rfl, rfl, rfl, rfl⟩
      · by_cases hcc : rr.content = l.content
        · rw [if_pos hcc] at h
          simp only [Except.ok.injEq] at h
          subst h
          exact ⟨_, rfl, rfl, rfl, rfl, rfl⟩
        · rw [if_neg hcc] at h
          rcases hc : l.content with _ | c <;> rw [hc] at h
          · simp at h
          · simp only [Except.ok.injEq] at h
            subst h
            exact ⟨_, rfl, rfl, rfl, rfl, hc.symm⟩

theorem runAll_append (draftMode deletePages : Bool)
    (createUrl : String → String → String) (xs ys : List Action)
    (outs : List ExecOutcome)
    (h : runAll draftMode deletePages createUrl (xs ++ ys) = .ok outs) :
    ∃ o1 o2, runAll draftMode deletePages createUrl xs = .ok o1 ∧
      runAll draftMode deletePages createUrl ys = .ok o2 ∧ outs = o1 ++ o2 := by
  induction xs generalizing outs with
  | nil => exact ⟨[], outs, rfl, h, rfl⟩
  | cons a rest ih =>
    rw [List.cons_append] at h
    rcases he : executeOne draftMode deletePages createUrl a with e | o <;>
      rw [runAll, he] at h
    · cases h
    · rcases hr : runAll draftMode deletePages createUrl (rest ++ ys) with e | os <;>
        rw [hr] at h
      · cases h
      · cases h
        obtain ⟨o1, o2, h1, h2, h3⟩ := ih os hr
        exact ⟨o :: o1, o2, by rw [runAll, he, h1], h2, by simp [h3]⟩

theorem runAll_map_mirrors (deletePages : Bool)
    (createUrl : String → String → String) (remote : List RemoteRow)
    (localRows : List LocalRow) (outs : List ExecOutcome)
    (h : runAll false deletePages createUrl
        (localRows.map (calculateAction remote)) = .ok outs) :
    List.Forall₂ (fun l o => ∃ r, o.row = some r ∧ mirrors l ⟨r, o.content⟩)
      localRows outs := by
  induction localRows generalizing outs with
  | nil =>
    cases h
    exact List.Forall₂.nil
  | cons l rest ih =>
    rw [List.map_cons] at h
    rcases he : executeOne false deletePages createUrl (calculateAction remote l)
        with e | o <;> rw [runAll, he] at h
    · cases h
    · rcases hr : runAll false deletePages createUrl
          (rest.map (calculateAction remote)) with e | os <;> rw [hr] at h
      · cases h
      · cases h
        exact List.Forall₂.cons
          (executeOne_calculateAction deletePages createUrl remote l o he)
          (ih os hr)

theorem executeOne_delete_row_none (deletePages : Bool)
    (createUrl : String → String → String) (level : Int) (path : String)
    (navlink : Navlink) (content : Option String) (o : ExecOutcome)
    (h : executeOne false deletePages createUrl (.delete level path navlink content) =
      .ok o) : o.row = none := by
  rcases hl : navlink.link with _ | url <;>
    simp only [executeOne, Bool.false_eq_true, if_false, hl] at h
  · simp at h
    simp [← h]
  · rcases deletePages <;> simp at h <;> simp [← h]

theorem runAll_deletes_rows_none (deletePages : Bool)
    (createUrl : String → String → String) (ds : List RemoteRow)
    (outs : List ExecOutcome)
    (h : runAll false deletePages createUrl
        (ds.map fun r => .delete r.row.level r.row.path r.row.navlink r.content) =
      .ok outs) :
    ∀ o ∈ outs, o.row = none := by
  induction ds generalizing outs with
  | nil =>
    cases h
    simp
  | cons d rest ih =>
    rw [List.map_cons] at h
    rcases he : executeOne false deletePages createUrl
        (.delete d.row.level d.row.path d.row.navlink d.content) with e | o <;>
      rw [runAll, he] at h
    · cases h
    · rcases hr : runAll false deletePages createUrl
          (rest.map fun r => .delete r.row.level r.row.path r.row.navlink r.content)
          with e | os <;> rw [hr] at h
      · cases h
      · cases h
        intro o0 ho0
        rcases List.mem_cons.mp ho0 with rfl | hmem
        · exact executeOne_delete_row_none deletePages createUrl _ _ _ _ _ he
        · exact ih os hr o0 hmem

theorem postRemote_mirrors (localRows : List LocalRow) (outs : List ExecOutcome)
    (h : List.Forall₂ (fun l o => ∃ r, o.row = some r ∧ mirrors l ⟨r, o.content⟩)
      localRows outs) :
    List.Forall₂ mirrors localRows (postRemote outs) := by
  induction h with
  | nil => exact List.Forall₂.nil
  | cons hlo _ ih =>
    obtain ⟨r, hrow, hm⟩ := hlo
    simpa [postRemote, hrow] using List.Forall₂.cons hm ih

theorem postRemote_none (outs : List ExecOutcome) (h : ∀ o ∈ outs, o.row = none) :
    postRemote outs = [] := by
  induction outs with
  | nil => rfl
  | cons o rest ih =>
    have ho := h o (by simp)
    simp only [postRemote, List.filterMap_cons, ho, Option.map_none]
    exact ih fun o' ho' => h o' (by simp [ho'])

theorem calculateAction_noop_of_mirrors (localRows : List LocalRow)
    (remote : List RemoteRow) (hm : List.Forall₂ mirrors localRows remote)
    (hnodup : (localRows.map LocalRow.path).Nodup) :
    ∀ l ∈ localRows, (calculateAction remote l).isNoop = true := by
  induction hm with
  | nil => simp
  | @cons l0 r0 ls rs hm0 htail ih =>
    intro l hl
    rcases List.mem_cons.mp hl with rfl | hmem
    · have hfind : remoteLookup (r0 :: rs) l.path = some r0 := by
        simp [remoteLookup, List.find?_cons, hm0.1]
      have hnav : (⟨l.title, r0.row.navlink.link⟩ : Navlink) = r0.row.navlink := by
        rcases hr : r0.row.navlink with ⟨t, lk⟩
        have := hm0.2.2.1
        rw [hr] at this
        simp_all
      simp [calculateAction, hfind, hnav, hm0.2.1, hm0.2.2.2, Action.isNoop]
    · have hne : r0.row.path ≠ l.path := by
        rw [hm0.1]
        rw [List.map_cons, List.nodup_cons] at hnodup
        intro hcontra
        exact hnodup.1 (hcontra ▸ List.mem_map_of_mem LocalRow.path hmem)
      have hfind : remoteLookup (r0 :: rs) l.path = remoteLookup rs l.path := by
        simp [remoteLookup, List.find?_cons, hne]
      have hrest := ih ((List.map_cons LocalRow.path l0 ls ▸ hnodup).of_cons) l hmem
      unfold calculateAction at hrest ⊢
      rw [hfind]
      exact hrest

theorem forall₂_mem_right {α β : Type} {R : α → β → Prop} {l₁ : List α}
    {l₂ : List β} (h : List.Forall₂ R l₁ l₂) : ∀ b ∈ l₂, ∃ a ∈ l₁, R a b := by
  induction h with
  | nil => simp
  | cons h₁ _ ih =>
    intro b hb
    rcases List.mem_cons.mp hb with rfl | hmem
    · exact ⟨_, by simp, h₁⟩
    · obtain ⟨a, ha, hr⟩ := ih b hmem
      exact ⟨a, by simp [ha], hr⟩

theorem postRemote_append (xs ys : List ExecOutcome) :
    postRemote (xs ++ ys) = postRemote xs ++ postRemote ys := by
  simp [postRemote, List.filterMap_append]

theorem second_diff_no_delete (localRows : List LocalRow) (remote : List RemoteRow)
    (hm : List.Forall₂ mirrors localRows remote) :
    (remote.filter fun r => !(localRows.any fun l => l.path == r.row.path)) = [] := by
  rw [List.filter_eq_nil_iff]
  intro r hr
  obtain ⟨l, hl, hml⟩ := forall₂_mem_right hm r hr
  simp only [Bool.not_eq_true', Bool.not_eq_false]
  exact List.any_eq_true.mpr ⟨l, hl, by simp [hml.1]⟩

/-- C2: One successful non-draft reconcile run brings the remote index in line
with the local tree: diffing the unchanged local rows against the
post-execution remote state produces only NOOP actions.  The local table paths
are unique (a data-model invariant of the index). -/
theorem reconcile_second_run_all_noop (deletePages : Bool)
    (createUrl : String → String → String) (localRows : List LocalRow)
    (remote : List RemoteRow) (outs : List ExecOutcome)
    (hnodup : (localRows.map LocalRow.path).Nodup)
    (hok : runAll false deletePages createUrl (diff localRows remote) = .ok outs) :
    ((diff localRows (postRemote outs)).all Action.isNoop) = true := by
  unfold diff at hok
  obtain ⟨o1, o2, h1, h2, rfl⟩ :=
    runAll_append false deletePages createUrl _ _ outs hok
  have hmir : List.Forall₂ mirrors localRows (postRemote o1) :=
    postRemote_mirrors localRows o1
      (runAll_map_mirrors deletePages createUrl remote localRows o1 h1)
  have ho2 : postRemote o2 = [] :=
    postRemote_none o2 (runAll_deletes_rows_none deletePages createUrl
      ((remote.filter fun r => !(localRows.any fun l => l.path == r.row.path)).reverse)
      o2 h2)
  have hpost : postRemote (o1 ++ o2) = postRemote o1 := by
    rw [postRemote_append, ho2, List.append_nil]
  rw [hpost]
  rw [List.all_eq_true]
  intro a ha
  rw [diff, List.mem_append] at ha
  rcases ha with ha | ha
  · obtain ⟨l, hl, rfl⟩ := List.mem_map.mp ha
    exact calculateAction_noop_of_mirrors localRows (postRemote o1) hmir hnodup l hl
  · rw [second_diff_no_delete localRows (postRemote o1) hmir] at ha
    simp at ha

theorem reconcile_second_run_all_noop_witness :
    ((diff [LocalRow.mk 1 "doc" "title 1" (some "content 1")]
        (postRemote
          [⟨⟨some ⟨1, "doc", ⟨"title 1", some "url 1"⟩⟩, .success, none⟩,
            some ⟨1, "doc", ⟨"title 1", some "url 1"⟩⟩, some "content 1",
            [.createTopic "title 1" "content 1"]⟩])).all Action.isNoop) = true :=
  reconcile_second_run_all_noop true (fun _ _ => "url 1")
    [LocalRow.mk 1 "doc" "title 1" (some "content 1")] []
    [⟨⟨some ⟨1, "doc", ⟨"title 1", some "url 1"⟩⟩, .success, none⟩,
      some ⟨1, "doc", ⟨"title 1", some "url 1"⟩⟩, some "content 1",
      [.createTopic "title 1" "content 1"]⟩]
    (by decide) rfl

/-- The sentinel file name that keeps empty directories under version control
(migration.GITKEEP_FILENAME). -/
def GITKEEP_FILENAME : String := ".gitkeep"

/-- Modelled from the spec: the reason attached to a gitkeep migration report
(migration.EMPTY_DIR_REASON; src/migration.py is not in the sources). -/
def EMPTY_DIR_REASON : String := "created due to empty directory"

/-- Python str.removeprefix: drops the leading occurrence of `p` from `s` when
present, otherwise returns `s` unchanged. -/
def removeLeading (p s : String) : String :=
  if s.data.take p.data.length = p.data then String.mk (s.data.drop p.data.length)
  else s

/-- Modelled from the spec: migration._extract_name_from_paths (§4.7 name
extraction; src/migration.py is not in the sources, behavior pinned by
tests/unit/test_migration.py): strip the current group's table path (its
components joined by `-`, plus the `-` separator) from the row's table path;
when it does not match, the whole row path is kept verbatim.  A filesystem
path is embedded as its list of components. -/
def _extract_name_from_paths (currentPath : List String) (tablePath : String) :
    String :=
  removeLeading (String.intercalate "-" currentPath ++ "-") tablePath

/-- Modelled from the spec: the three input-error messages of
migration._assert_valid_row, each naming the offending row and the rule
broken (wording pinned by tests/unit/test_migration.py). -/
def invalidStartMsg (row : TableRow) : String :=
  "invalid starting row level: " ++ row.path ++
    ", a table row must start with level value 1, please fix the upstream first and re-run."

/-- Second rule message: zero or negative level. -/
def invalidLevelMsg (row : TableRow) : String :=
  "invalid row level: " ++ row.path ++ ", zero or negative level value is invalid."

/-- Third rule message: level sequence jump. -/
def invalidSeqMsg (row : TableRow) : String :=
  "invalid row level value sequence: " ++ row.path ++
    ", level sequence jumps of more than 1 is invalid."

/-- Modelled from the spec: migration._assert_valid_row (level validation
inside the migrator's walk; src/migration.py is not in the sources, behavior
pinned by tests/unit/test_migration.py): the first row must have level 1,
levels must be positive, and a row's level may exceed the current group level
by at most 1. -/
def _assert_valid_row (groupLevel : Int) (row : TableRow) (isFirstRow : Bool) :
    Except String Unit :=
  if isFirstRow ∧ row.level ≠ 1 then .error (invalidStartMsg row)
  else if row.level ≤ 0 then .error (invalidLevelMsg row)
  else if row.level > groupLevel + 1 then .error (invalidSeqMsg row)
  else .ok ()

/-- Drop the last `n` components of a path (iterated Path.parent). -/
def dropLastN : List String → Nat → List String
  | p, 0 => p
  | p, n + 1 => dropLastN p.dropLast n

/-- Modelled from the spec: migration._get_next_group_info (§4.7 group stack;
src/migration.py is not in the sources, behavior pinned by
tests/unit/test_migration.py).  For a group row the stack is popped while the
group level is at least the row's level, then the group's extracted name is
pushed; for a document row the stack is popped while the group level is at
least the row's level (the document does not deepen the stack). -/
def _get_next_group_info (row : TableRow) (groupPath : List String)
    (groupLevel : Int) : List String × Int :=
  if row.isGroup then
    let popped := dropLastN groupPath (groupLevel - (row.level - 1)).toNat
    (popped ++ [_extract_name_from_paths popped row.path],
      min groupLevel (row.level - 1) + 1)
  else
    (dropLastN groupPath (groupLevel - (row.level - 1)).toNat,
      min groupLevel (row.level - 1))

/-- Modelled from the spec: the migration file metadata variants
(types_.MigrationFileMeta: DocumentMeta, GitkeepMeta, IndexDocumentMeta);
src/types_.py is not in the sources.  Paths are embedded as component
lists. -/
inductive MigrationFileMeta where
  | document (path : List String) (link : String) (tableRow : TableRow)
  | gitkeep (path : List String) (tableRow : TableRow)
  | indexDoc (path : List String) (content : String)
deriving DecidableEq, Repr

/-- The local path a migration file meta is written to. -/
def MigrationFileMeta.metaPath : MigrationFileMeta → List String
  | .document path _ _ => path
  | .gitkeep path _ => path
  | .indexDoc path _ => path

/-- Modelled from the spec: migration._create_document_meta: the document file
is written at the current path plus the extracted name with the `.md` suffix,
linked to the row's navlink link (document rows always carry one; a missing
link is defaulted to the empty string). -/
def _create_document_meta (row : TableRow) (path : List String) :
    MigrationFileMeta :=
  .document (path ++ [_extract_name_from_paths path row.path ++ ".md"])
    (row.navlink.link.getD "") row

/-- Modelled from the spec: migration._create_gitkeep_meta: the sentinel file
at the group's directory. -/
def _create_gitkeep_meta (row : TableRow) (path : List String) :
    MigrationFileMeta :=
  .gitkeep (path ++ [GITKEEP_FILENAME]) row

/-- Modelled from the spec: the walk of migration._extract_docs_from_table_rows
(§4.7 step 2; src/migration.py is not in the sources, behavior pinned by
tests/unit/test_migration.py).  State: current group path, current group
level, and the previous row.  Each row is validated against the group level;
when the previous row is a group and the current row does not nest below it,
that group was empty and its gitkeep meta is emitted; a document row emits its
document meta; a trailing group row emits its gitkeep meta at the end. -/
def extractAux : List TableRow → List String → Int → Option TableRow →
    Except String (List MigrationFileMeta)
  | [], groupPath, _, prev =>
    match prev with
    | some p => if p.isGroup then .ok [_create_gitkeep_meta p groupPath] else .ok []
    | none => .ok []
  | row :: rest, groupPath, groupLevel, prev =>
    match _assert_valid_row groupLevel row prev.isNone with
    | .error e => .error e
    | .ok _ =>
      let closing : List MigrationFileMeta :=
        match prev with
        | some p =>
          if p.isGroup && decide (row.level ≤ p.level) then
            [_create_gitkeep_meta p groupPath]
          else []
        | none => []
      let next := _get_next_group_info row groupPath groupLevel
      let current : List MigrationFileMeta :=
        if row.isGroup then [] else [_create_document_meta row next.1]
      match extractAux rest next.1 next.2 (some row) with
      | .error e => .error e
      | .ok tail => .ok (closing ++ current ++ tail)

/-- Modelled from the spec: migration._extract_docs_from_table_rows over a
row sequence, starting at the root with no previous row. -/
def _extract_docs_from_table_rows (rows : List TableRow) :
    Except String (List MigrationFileMeta) :=
  extractAux rows [] 0 none

/-- The level rule as the spec states it (§4.3, §8), written from its words:
the first row has level 1, every row has level at least 1, and no row's level
exceeds the previous row's level by more than 1. -/
def specLevelRuleAccepts (rows : List TableRow) : Bool :=
  match rows with
  | [] => true
  | r0 :: _ =>
    r0.level == 1 && (rows.all fun r => decide (1 ≤ r.level)) &&
      ((rows.zip rows.tail).all fun p => decide (p.2.level ≤ p.1.level + 1))

/-- The migrator's actual level rule: each row is checked against the current
group level, and only group rows deepen it (a document row pops but never
pushes). -/
def groupLevelGo : List TableRow → Int → Bool → Bool
  | [], _, _ => true
  | r :: rest, gl, first =>
    (!(first && decide (r.level ≠ 1))) && decide (0 < r.level) &&
      decide (r.level ≤ gl + 1) &&
      groupLevelGo rest
        (if r.isGroup then min gl (r.level - 1) + 1 else min gl (r.level - 1)) false

/-- Acceptance by the migrator's walk, starting at group level 0 with no
previous row. -/
def specGroupLevelAccepts (rows : List TableRow) : Bool := groupLevelGo rows 0 true

theorem get_next_group_info_level (row : TableRow) (gp : List String) (gl : Int) :
    (_get_next_group_info row gp gl).2 =
      if row.isGroup then min gl (row.level - 1) + 1 else min gl (row.level - 1) := by
  unfold _get_next_group_info
  rcases h : row.isGroup <;> simp [h]

theorem groupLevelGo_cons (r : TableRow) (rest : List TableRow) (gl : Int)
    (first : Bool) :
    groupLevelGo (r :: rest) gl first =
      ((!(first && decide (r.level ≠ 1))) && decide (0 < r.level) &&
        decide (r.level ≤ gl + 1) &&
        groupLevelGo rest
          (if r.isGroup then min gl (r.level - 1) + 1 else min gl (r.level - 1))
          false) := rfl

theorem extractAux_nil (gp : List String) (gl : Int) (prev : Option TableRow) :
    extractAux [] gp gl prev =
      match prev with
      | some p => if p.isGroup then .ok [_create_gitkeep_meta p gp] else .ok []
      | none => .ok [] := rfl

theorem extractAux_cons (row : TableRow) (rest : List TableRow) (gp : List String)
    (gl : Int) (prev : Option TableRow) :
    extractAux (row :: rest) gp gl prev =
      match _assert_valid_row gl row prev.isNone with
      | .error e => .error e
      | .ok _ =>
        match extractAux rest (_get_next_group_info row gp gl).1
            (_get_next_group_info row gp gl).2 (some row) with
        | .error e => .error e
        | .ok tail =>
          .ok ((match prev with
            | some p =>
              if p.isGroup && decide (row.level ≤ p.level) then
                [_create_gitkeep_meta p gp]
              else []
            | none => []) ++
            (if row.isGroup then [] else
              [_create_document_meta row (_get_next_group_info row gp gl).1]) ++
            tail) := rfl

theorem assert_valid_row_cases (gl : Int) (row : TableRow) (first : Bool) :
    (_assert_valid_row gl row first = .ok () ∧
      ((!(first && decide (row.level ≠ 1))) && decide (0 < row.level) &&
        decide (row.level ≤ gl + 1)) = true) ∨
    (∃ e, _assert_valid_row gl row first = .error e ∧
      ((!(first && decide (row.level ≠ 1))) && decide (0 < row.level) &&
        decide (row.level ≤ gl + 1)) = false ∧
      (e = invalidStartMsg row ∨ e = invalidLevelMsg row ∨ e = invalidSeqMsg row)) := by
  unfold _assert_valid_row
  split_ifs with h1 h2 h3
  · exact Or.inr ⟨_, rfl, by simp [h1.1, h1.2], Or.inl rfl⟩
  · refine Or.inr ⟨_, rfl, ?_, Or.inr (Or.inl rfl)⟩
    have hl : ¬ (0 < row.level) := by omega
    simp [hl]
  · refine Or.inr ⟨_, rfl, ?_, Or.inr (Or.inr rfl)⟩
    have hle : ¬ (row.level ≤ gl + 1) := by omega
    simp [hle]
  · refine Or.inl ⟨rfl, ?_⟩
    have hl : 0 < row.level := by omega
    have hle : row.level ≤ gl + 1 := by omega
    simp only [decide_eq_true hl, decide_eq_true hle, Bool.and_true]
    rcases first with _ | _
    · simp
    · simp only [Bool.true_and, Bool.not_eq_true', decide_eq_false_iff_not,
        Decidable.not_not]
      by_contra hne
      exact h1 ⟨rfl, hne⟩

theorem extractAux_ok_iff (rows : List TableRow) :
    ∀ (gp : List String) (gl : Int) (prev : Option TableRow),
      ((∃ metas, extractAux rows gp gl prev = .ok metas) ↔
        groupLevelGo rows gl prev.isNone = true) ∧
      (∀ e, extractAux rows gp gl prev = .error e →
        ∃ row ∈ rows, e = invalidStartMsg row ∨ e = invalidLevelMsg row ∨
          e = invalidSeqMsg row) := by
  induction rows with
  | nil =>
    intro gp gl prev
    constructor
    · constructor
      · intro _
        rfl
      · intro _
        rcases prev with _ | p
        · exact ⟨[], rfl⟩
        · rcases hg : p.isGroup
          · exact ⟨[], by simp [extractAux_nil, hg]⟩
          · exact ⟨[_create_gitkeep_meta p gp], by simp [extractAux_nil, hg]⟩
    · intro e he
      rcases prev with _ | p
      · cases he
      · rcases hg : p.isGroup <;> rw [extractAux_nil] at he <;> simp [hg] at he
  | cons row rest ih =>
    intro gp gl prev
    rcases assert_valid_row_cases gl row prev.isNone with ⟨hok, hhead⟩ |
      ⟨e0, herr, hhead, hmsg⟩
    · obtain ⟨ih1, ih2⟩ := ih (_get_next_group_info row gp gl).1
        (_get_next_group_info row gp gl).2 (some row)
      rw [show (some row).isNone = false from rfl] at ih1
      have hgo : groupLevelGo (row :: rest) gl prev.isNone =
          groupLevelGo rest (_get_next_group_info row gp gl).2 false := by
        rw [groupLevelGo_cons, hhead, Bool.true_and, ← get_next_group_info_level]
      constructor
      · rw [hgo, ← ih1]
        constructor
        · rintro ⟨metas, hm⟩
          rw [extractAux_cons, hok] at hm
          rcases hrec : extractAux rest (_get_next_group_info row gp gl).1
              (_get_next_group_info row gp gl).2 (some row) with e | tail <;>
            rw [hrec] at hm
          · cases hm
          · exact ⟨tail, rfl⟩
        · rintro ⟨tail, ht⟩
          exact ⟨_, by rw [extractAux_cons, hok, ht]⟩
      · intro e he
        rw [extractAux_cons, hok] at he
        rcases hrec : extractAux rest (_get_next_group_info row gp gl).1
            (_get_next_group_info row gp gl).2 (some row) with e1 | tail <;>
          rw [hrec] at he
        · cases he
          obtain ⟨r, hr, hm⟩ := ih2 e hrec
          exact ⟨r, List.mem_cons_of_mem row hr, hm⟩
        · cases he
    · constructor
      · rw [groupLevelGo_cons, hhead, Bool.false_and]
        constructor
        · rintro ⟨metas, hm⟩
          rw [extractAux_cons, herr] at hm
          cases hm
        · intro hfalse
          exact absurd hfalse (by simp)
      · intro e he
        rw [extractAux_cons, herr] at he
        cases he
        exact ⟨row, List.mem_cons_self row rest, hmsg⟩

/-- C3 counterexample: the row sequence (document level 1, document level 2)
satisfies the spec's stated rule — first level 1, all levels at least 1, an
increase of exactly 1 — yet the migrator's validator rejects it with an input
error, because a document row does not deepen the group level. -/
theorem level_validator_prev_row_rule_counterexample :
    specLevelRuleAccepts
        [⟨1, "doc-1", ⟨"Doc 1", some "link 1"⟩⟩,
          ⟨2, "doc-2", ⟨"Doc 2", some "link 2"⟩⟩] = true ∧
    _extract_docs_from_table_rows
        [⟨1, "doc-1", ⟨"Doc 1", some "link 1"⟩⟩,
          ⟨2, "doc-2", ⟨"Doc 2", some "link 2"⟩⟩] =
      .error (invalidSeqMsg ⟨2, "doc-2", ⟨"Doc 2", some "link 2"⟩⟩) :=
  ⟨by decide, rfl⟩

/-- C3 (amended): the migrator's walk accepts an ordered row sequence if and
only if the first row has level 1, every level is positive, and no row's level
exceeds the current group level by more than 1, where only group rows deepen
the group level (a document row pops the stack but never pushes); any
violation raises an input error naming the offending row and the rule
broken. -/
theorem level_validator_group_level_rule (rows : List TableRow) :
    ((∃ metas, _extract_docs_from_table_rows rows = .ok metas) ↔
      specGroupLevelAccepts rows = true) ∧
    (∀ e, _extract_docs_from_table_rows rows = .error e →
      ∃ row ∈ rows, e = invalidStartMsg row ∨ e = invalidLevelMsg row ∨
        e = invalidSeqMsg row) :=
  extractAux_ok_iff rows [] 0 none

theorem level_validator_group_level_rule_witness :
    ∃ row ∈ [(⟨1, "doc-1", ⟨"Doc 1", some "link 1"⟩⟩ : TableRow),
        ⟨2, "doc-2", ⟨"Doc 2", some "link 2"⟩⟩],
      invalidSeqMsg (⟨2, "doc-2", ⟨"Doc 2", some "link 2"⟩⟩ : TableRow) =
          invalidStartMsg row ∨
        invalidSeqMsg (⟨2, "doc-2", ⟨"Doc 2", some "link 2"⟩⟩ : TableRow) =
          invalidLevelMsg row ∨
        invalidSeqMsg (⟨2, "doc-2", ⟨"Doc 2", some "link 2"⟩⟩ : TableRow) =
          invalidSeqMsg row :=
  (level_validator_group_level_rule
      [⟨1, "doc-1", ⟨"Doc 1", some "link 1"⟩⟩,
        ⟨2, "doc-2", ⟨"Doc 2", some "link 2"⟩⟩]).2
    (invalidSeqMsg ⟨2, "doc-2", ⟨"Doc 2", some "link 2"⟩⟩) rfl

/-- The table rows for which a Gitkeep meta is present in a meta stream, in
emission order. -/
def gitkeepRows (metas : List MigrationFileMeta) : List TableRow :=
  metas.filterMap fun m =>
    match m with
    | .gitkeep _ r => some r
    | _ => none

/-- The previous row, if it is a group, is closed empty by the next row (or by
the end of the walk) exactly when the next row does not nest strictly below
it. -/
def closes (prev : Option TableRow) (next : Option TableRow) : List TableRow :=
  match prev with
  | none => []
  | some p =>
    if p.isGroup && (match next with
        | none => true
        | some r => decide (r.level ≤ p.level)) then [p]
    else []

/-- The group rows the walk leaves childless: each group row immediately
followed by no deeper row (or by the end of the rows). -/
def childlessGroups : Option TableRow → List TableRow → List TableRow
  | prev, [] => closes prev none
  | prev, r :: rest => closes prev (some r) ++ childlessGroups (some r) rest

theorem gitkeepRows_append (xs ys : List MigrationFileMeta) :
    gitkeepRows (xs ++ ys) = gitkeepRows xs ++ gitkeepRows ys := by
  simp [gitkeepRows, List.filterMap_append]

theorem gitkeepRows_nil : gitkeepRows [] = [] := rfl

theorem gitkeepRows_one_gitkeep (p : List String) (r : TableRow) :
    gitkeepRows [.gitkeep p r] = [r] := rfl

theorem gitkeepRows_one_document (p : List String) (l : String) (r : TableRow) :
    gitkeepRows [.document p l r] = [] := rfl

theorem extractAux_gitkeepRows (rows : List TableRow) :
    ∀ (gp : List String) (gl : Int) (prev : Option TableRow)
      (metas : List MigrationFileMeta),
      extractAux rows gp gl prev = .ok metas →
      gitkeepRows metas = childlessGroups prev rows := by
  induction rows with
  | nil =>
    intro gp gl prev metas h
    rcases prev with _ | p
    · cases h
      rfl
    · rw [extractAux_nil] at h
      rcases hg : p.isGroup <;> simp only [hg] at h <;> simp only [Bool.false_eq_true,
        if_false, if_true, Except.ok.injEq] at h <;> subst h <;>
        simp [gitkeepRows, childlessGroups, closes, hg, _create_gitkeep_meta]
  | cons row rest ih =>
    intro gp gl prev metas h
    rw [extractAux_cons] at h
    rcases ha : _assert_valid_row gl row prev.isNone with e | u <;> rw [ha] at h
    · cases h
    · rcases hrec : extractAux rest (_get_next_group_info row gp gl).1
          (_get_next_group_info row gp gl).2 (some row) with e | tail <;>
        rw [hrec] at h
      · cases h
      · cases h
        rw [gitkeepRows_append, gitkeepRows_append]
        have htail := ih (_get_next_group_info row gp gl).1
          (_get_next_group_info row gp gl).2 (some row) tail hrec
        have hcur : gitkeepRows
            (if row.isGroup then [] else
              [_create_document_meta row (_get_next_group_info row gp gl).1]) = [] := by
          rcases hg : row.isGroup <;>
            simp [hg, _create_document_meta, gitkeepRows_nil, gitkeepRows_one_document]
        rcases prev with _ | p
        · simp [htail, hcur, childlessGroups, closes, gitkeepRows_nil]
        · rcases hc : p.isGroup && decide (row.level ≤ p.level) <;>
            simp [childlessGroups, closes, hc, htail, hcur, gitkeepRows_nil,
              gitkeepRows_one_gitkeep, _create_gitkeep_meta]

/-- C6 counterexample: for the rows group-1 (level 1) and its nested subgroup
group-1-group-2 (level 2), the outer group never receives a descendant
document, yet the walk emits no Gitkeep meta at group-1/.gitkeep — only the
inner group gets one; and for the rows (group-1, doc-1, group-2) the Gitkeep
meta for group-1 is emitted before the document meta, not after the walk of
all rows. -/
theorem gitkeep_descendant_document_counterexample :
    (_extract_docs_from_table_rows
        [⟨1, "group-1", ⟨"Group 1", none⟩⟩,
          ⟨2, "group-1-group-2", ⟨"Group 2", none⟩⟩] =
      .ok [MigrationFileMeta.gitkeep ["group-1", "group-2", GITKEEP_FILENAME]
        ⟨2, "group-1-group-2", ⟨"Group 2", none⟩⟩]) ∧
    (_extract_docs_from_table_rows
        [⟨1, "group-1", ⟨"Group 1", none⟩⟩,
          ⟨1, "doc-1", ⟨"Doc 1", some "link 1"⟩⟩,
          ⟨1, "group-2", ⟨"Group 2", none⟩⟩] =
      .ok [MigrationFileMeta.gitkeep ["group-1", GITKEEP_FILENAME]
          ⟨1, "group-1", ⟨"Group 1", none⟩⟩,
        MigrationFileMeta.document ["doc-1.md"] "link 1"
          ⟨1, "doc-1", ⟨"Doc 1", some "link 1"⟩⟩,
        MigrationFileMeta.gitkeep ["group-2", GITKEEP_FILENAME]
          ⟨1, "group-2", ⟨"Group 2", none⟩⟩]) :=
  ⟨rfl, rfl⟩

/-- C6 (amended): in a successful walk, exactly the group rows that are left
childless — each group row immediately followed by no deeper row, or standing
at the end of the rows — receive one Gitkeep meta each, emitted in walk order
at the point the group is closed (interleaved with the walk), not all after
it. -/
theorem gitkeep_for_childless_groups (rows : List TableRow)
    (metas : List MigrationFileMeta)
    (hok : _extract_docs_from_table_rows rows = .ok metas) :
    gitkeepRows metas = childlessGroups none rows :=
  extractAux_gitkeepRows rows [] 0 none metas hok

theorem gitkeep_for_childless_groups_witness :
    gitkeepRows [MigrationFileMeta.gitkeep ["group-1", GITKEEP_FILENAME]
        ⟨1, "group-1", ⟨"Group 1", none⟩⟩] =
      childlessGroups none [⟨1, "group-1", ⟨"Group 1", none⟩⟩] :=
  gitkeep_for_childless_groups [⟨1, "group-1", ⟨"Group 1", none⟩⟩]
    [MigrationFileMeta.gitkeep ["group-1", GITKEEP_FILENAME]
      ⟨1, "group-1", ⟨"Group 1", none⟩⟩] rfl

theorem dropLastN_eq_take (n : Nat) (p : List String) :
    dropLastN p n = p.take (p.length - n) := by
  induction n generalizing p with
  | zero => simp [dropLastN]
  | succ n ih =>
    rw [dropLastN, ih, List.length_dropLast, List.dropLast_eq_take, List.take_take]
    congr 1
    omega

theorem removeLeading_append (p s : String) : removeLeading p (p ++ s) = s := by
  unfold removeLeading
  have hdata : (p ++ s).data = p.data ++ s.data := rfl
  rw [hdata, if_pos (List.take_left p.data s.data), List.drop_left]

theorem removeLeading_of_no_suffix (p s : String) (h : ∀ t, s ≠ p ++ t) :
    removeLeading p s = s := by
  unfold removeLeading
  rw [if_neg]
  intro hc
  apply h (String.mk (s.data.drop p.data.length))
  have h2 : p.data ++ s.data.drop p.data.length = s.data := by
    nth_rewrite 1 [← hc]
    exact List.take_append_drop _ _
  show String.mk s.data = String.mk (p.data ++ s.data.drop p.data.length)
  rw [h2]

theorem extract_name_strips (parent : List String) (tablePath s : String)
    (h : tablePath = String.intercalate "-" parent ++ "-" ++ s) :
    _extract_name_from_paths parent tablePath = s := by
  unfold _extract_name_from_paths
  rw [h]
  exact removeLeading_append _ _

theorem extract_name_verbatim (parent : List String) (tablePath : String)
    (h : ∀ s, tablePath ≠ String.intercalate "-" parent ++ "-" ++ s) :
    _extract_name_from_paths parent tablePath = tablePath :=
  removeLeading_of_no_suffix _ _ h

theorem get_next_group_info_document (row : TableRow) (gp : List String)
    (hdoc : row.isGroup = false) (hlevel : 1 ≤ row.level) :
    _get_next_group_info row gp (gp.length : Int) =
      (gp.take (row.level - 1).toNat, min (gp.length : Int) (row.level - 1)) := by
  unfold _get_next_group_info
  rw [hdoc]
  simp only [Bool.false_eq_true, if_false]
  rw [dropLastN_eq_take]
  have hfst : gp.take (gp.length - ((gp.length : Int) - (row.level - 1)).toNat) =
      gp.take (row.level - 1).toNat := by
    rcases le_or_lt ((row.level - 1).toNat) gp.length with hle | hlt
    · congr 1
      omega
    · rw [show gp.length - ((gp.length : Int) - (row.level - 1)).toNat = gp.length
        from by omega]
      rw [List.take_length, List.take_of_length_le (le_of_lt hlt)]
  rw [hfst]

/-- C7: For a document row at level L above a group stack of depth equal to
its length, the migrator pops the stack until its depth is below L — the
parent directory is the stack's first L−1 components — and the document meta
is parent plus name.md, where name is the row's table path with the parent
group's table path (its components joined by `-`) plus the `-` separator
stripped; when no such decomposition exists the whole row path is used
verbatim. -/
theorem document_meta_parent_and_name (gp : List String) (row : TableRow)
    (u : String) (hdoc : row.navlink.link = some u) (hlevel : 1 ≤ row.level) :
    (_get_next_group_info row gp (gp.length : Int)).1 =
        gp.take (row.level - 1).toNat ∧
    _create_document_meta row (gp.take (row.level - 1).toNat) =
      .document (gp.take (row.level - 1).toNat ++
        [_extract_name_from_paths (gp.take (row.level - 1).toNat) row.path ++ ".md"])
        u row ∧
    (∀ s, row.path =
        String.intercalate "-" (gp.take (row.level - 1).toNat) ++ "-" ++ s →
      _extract_name_from_paths (gp.take (row.level - 1).toNat) row.path = s) ∧
    ((∀ s, row.path ≠
        String.intercalate "-" (gp.take (row.level - 1).toNat) ++ "-" ++ s) →
      _extract_name_from_paths (gp.take (row.level - 1).toNat) row.path = row.path) := by
  have hg : row.isGroup = false := by simp [TableRow.isGroup, hdoc]
  refine ⟨?_, ?_, ?_, ?_⟩
  · rw [get_next_group_info_document row gp hg hlevel]
  · simp [_create_document_meta, hdoc]
  · intro s hs
    exact extract_name_strips _ _ _ hs
  · intro hne
    exact extract_name_verbatim _ _ hne

theorem document_meta_parent_and_name_witness :
    (_get_next_group_info ⟨2, "group-1-doc-1", ⟨"Doc 1", some "link 1"⟩⟩
        ["group-1"] 1).1 = ["group-1"] ∧
    _create_document_meta ⟨2, "group-1-doc-1", ⟨"Doc 1", some "link 1"⟩⟩
        ["group-1"] =
      .document ["group-1",
        _extract_name_from_paths ["group-1"] "group-1-doc-1" ++ ".md"]
        "link 1" ⟨2, "group-1-doc-1", ⟨"Doc 1", some "link 1"⟩⟩ ∧
    (∀ s, "group-1-doc-1" = String.intercalate "-" ["group-1"] ++ "-" ++ s →
      _extract_name_from_paths ["group-1"] "group-1-doc-1" = s) ∧
    ((∀ s, "group-1-doc-1" ≠ String.intercalate "-" ["group-1"] ++ "-" ++ s) →
      _extract_name_from_paths ["group-1"] "group-1-doc-1" = "group-1-doc-1") :=
  document_meta_parent_and_name ["group-1"]
    ⟨2, "group-1-doc-1", ⟨"Doc 1", some "link 1"⟩⟩ "link 1" rfl (by decide)

/-- A filesystem model: the list of (path, content) writes, most recent
first. -/
def FS := List (List String × String)

/-- Write a file: prepend, so later writes shadow earlier ones. -/
def fsWrite (fs : FS) (p : List String) (c : String) : FS := (p, c) :: fs

/-- Read a file: the most recent write at the path. -/
def fsRead (fs : FS) (p : List String) : Option String :=
  ((fs : List (List String × String)).find? fun e => e.1 == p).map fun e => e.2

/-- A migration report: the source table row (none for the index file), the
written location, result tag and optional reason (types_.ActionReport as the
migrator produces it). -/
structure MigrationReport where
  tableRow : Option TableRow
  location : List String
  result : ActionResult
  reason : Option String
deriving DecidableEq, Repr

/-- Modelled from the spec: migration._migrate_document (§4.7 step 3;
src/migration.py is not in the sources, behavior pinned by
tests/unit/test_migration.py): fetch the topic content for the meta's link and
write the file; a client error yields a FAIL report with the error as reason
and no file. -/
def _migrate_document (retrieve : String → Except String String)
    (path : List String) (link : String) (row : TableRow) (fs : FS) :
    MigrationReport × FS :=
  match retrieve link with
  | .error e => (⟨some row, path, .fail, some e⟩, fs)
  | .ok content => (⟨some row, path, .success, none⟩, fsWrite fs path content)

/-- Modelled from the spec: migration._run_one: dispatch one migration file
meta — documents fetch and write, gitkeeps write the empty sentinel, the index
meta writes its content. -/
def _run_one (retrieve : String → Except String String) (fs : FS) :
    MigrationFileMeta → MigrationReport × FS
  | .document path link row => _migrate_document retrieve path link row fs
  | .gitkeep path row =>
    (⟨some row, path, .success, some EMPTY_DIR_REASON⟩, fsWrite fs path "")
  | .indexDoc path content =>
    (⟨none, path, .success, none⟩, fsWrite fs path content)

/-- Modelled from the spec: the migrator's execution of the whole meta stream
in order, threading the filesystem and collecting the per-item reports. -/
def migrationRun (retrieve : String → Except String String) (fs : FS) :
    List MigrationFileMeta → List MigrationReport × FS
  | [] => ([], fs)
  | m :: rest =>
    let step := _run_one retrieve fs m
    let result := migrationRun retrieve step.2 rest
    (step.1 :: result.1, result.2)

theorem fsRead_write_ne (fs : FS) (q p : List String) (c : String)
    (hne : p ≠ q) : fsRead (fsWrite fs q c) p = fsRead fs p := by
  have hbeq : (q == p) = false := beq_eq_false_iff_ne.mpr fun hc => hne hc.symm
  simp [fsRead, fsWrite, List.find?_cons, hbeq]

theorem run_one_writes_only_metaPath (retrieve : String → Except String String)
    (fs : FS) (m : MigrationFileMeta) (p : List String)
    (hne : p ≠ m.metaPath) :
    fsRead (_run_one retrieve fs m).2 p = fsRead fs p := by
  cases m with
  | document path link row =>
    simp only [MigrationFileMeta.metaPath] at hne
    simp only [_run_one]
    unfold _migrate_document
    rcases hr : retrieve link with e | content
    · rfl
    · exact fsRead_write_ne fs path p content hne
  | gitkeep path row =>
    simp only [MigrationFileMeta.metaPath] at hne
    simp only [_run_one]
    exact fsRead_write_ne fs path p "" hne
  | indexDoc path content =>
    simp only [MigrationFileMeta.metaPath] at hne
    simp only [_run_one]
    exact fsRead_write_ne fs path p content hne

theorem migrationRun_preserves_other_paths
    (retrieve : String → Except String String) (metas : List MigrationFileMeta)
    (fs : FS) (p : List String)
    (hnot : p ∉ metas.map MigrationFileMeta.metaPath) :
    fsRead (migrationRun retrieve fs metas).2 p = fsRead fs p := by
  induction metas generalizing fs with
  | nil => rfl
  | cons m rest ih =>
    rw [List.map_cons, List.mem_cons] at hnot
    push_neg at hnot
    show fsRead (migrationRun retrieve (_run_one retrieve fs m).2 rest).2 p = _
    rw [ih (_run_one retrieve fs m).2 hnot.2,
      run_one_writes_only_metaPath retrieve fs m p hnot.1]

/-- C5: In a migration run over metas with pairwise-distinct paths, every
document meta whose topic fetch succeeds ends with a file at its computed
path whose content equals exactly the fetched string, and its report is
SUCCESS. -/
theorem migration_document_fidelity (retrieve : String → Except String String)
    (fs0 : FS) (metas : List MigrationFileMeta) (path : List String)
    (link : String) (row : TableRow) (c : String)
    (hmem : MigrationFileMeta.document path link row ∈ metas)
    (hnodup : (metas.map MigrationFileMeta.metaPath).Nodup)
    (hfetch : retrieve link = .ok c) :
    fsRead (migrationRun retrieve fs0 metas).2 path = some c ∧
      (⟨some row, path, .success, none⟩ : MigrationReport) ∈
        (migrationRun retrieve fs0 metas).1 := by
  induction metas generalizing fs0 with
  | nil => cases hmem
  | cons m rest ih =>
    rw [List.map_cons, List.nodup_cons] at hnodup
    rcases List.mem_cons.mp hmem with rfl | hmem'
    · have hnot : path ∉ rest.map MigrationFileMeta.metaPath := hnodup.1
      constructor
      · show fsRead (migrationRun retrieve
          (_run_one retrieve fs0 (.document path link row)).2 rest).2 path = some c
        rw [migrationRun_preserves_other_paths retrieve rest _ path hnot]
        simp only [_run_one, _migrate_document, hfetch]
        simp [fsRead, fsWrite, List.find?_cons]
      · show (⟨some row, path, .success, none⟩ : MigrationReport) ∈
          (_run_one retrieve fs0 (.document path link row)).1 ::
            (migrationRun retrieve _ rest).1
        simp only [_run_one, _migrate_document, hfetch]
        exact List.mem_cons_self _ _
    · obtain ⟨h1, h2⟩ := ih (_run_one retrieve fs0 m).2 hmem' hnodup.2
      exact ⟨h1, List.mem_cons_of_mem _ h2⟩

theorem migration_document_fidelity_witness :
    fsRead (migrationRun (fun _ => .ok "content 1") []
        [MigrationFileMeta.document ["doc-1.md"] "link 1"
          ⟨1, "doc-1", ⟨"Doc 1", some "link 1"⟩⟩]).2 ["doc-1.md"] =
      some "content 1" ∧
      (⟨some ⟨1, "doc-1", ⟨"Doc 1", some "link 1"⟩⟩, ["doc-1.md"], .success, none⟩ :
          MigrationReport) ∈
        (migrationRun (fun _ => .ok "content 1") []
          [MigrationFileMeta.document ["doc-1.md"] "link 1"
            ⟨1, "doc-1", ⟨"Doc 1", some "link 1"⟩⟩]).1 :=
  migration_document_fidelity (fun _ => .ok "content 1") []
    [MigrationFileMeta.document ["doc-1.md"] "link 1"
      ⟨1, "doc-1", ⟨"Doc 1", some "link 1"⟩⟩]
    ["doc-1.md"] "link 1" ⟨1, "doc-1", ⟨"Doc 1", some "link 1"⟩⟩ "content 1"
    (List.mem_cons_self _ _) (by decide) rfl

/-- _URL_PATH_PREFIX from src/discourse.py: the literal "/t/". -/
def URL_PATH_START : String := "/t/"

/-- Python str.startswith, modelled character-wise. -/
def startsWithStr (p s : String) : Bool := decide (s.data.take p.data.length = p.data)

/-- Python str.split("/") over a char list: split at every '/'. -/
def splitSlashAux : List Char → List (List Char)
  | [] => [[]]
  | c :: rest =>
    if c = '/' then [] :: splitSlashAux rest
    else
      match splitSlashAux rest with
      | [] => [[c]]
      | g :: gs => (c :: g) :: gs

/-- Python str.split("/"): the list of components between slashes, keeping
empty components. -/
def splitSlash (s : String) : List String := (splitSlashAux s.data).map String.mk

/-- Python int() on a plain non-negative decimal string: defined when the
string is non-empty and all digits, the shape the id component has here. -/
def digitsToNat : List Char → Nat → Nat
  | [], acc => acc
  | c :: rest, acc => digitsToNat rest (acc * 10 + (c.toNat - Char.toNat '0'))

/-- Scan for the first "://" separator of a URL, aborting at any '/' seen
first (a path character before a colon means there is no scheme).  Returns
what follows the separator (scheme and netloc context), or none for a
relative reference. -/
def afterSchemeSep : List Char → Option (List Char)
  | ':' :: '/' :: '/' :: rest => some rest
  | '/' :: _ => none
  | _ :: rest => afterSchemeSep rest
  | [] => none

/-- Model of urllib.parse.urlparse(url).path, exact for the URL shapes the
client handles: either an absolute URL of the form scheme://netloc/path with
a single "://", or a scheme-less relative path, in both cases without query,
fragment or parameters. -/
def urlparse_path (url : String) : String :=
  match afterSchemeSep url.data with
  | some rest => String.mk (rest.dropWhile fun c => c ≠ '/')
  | none => url

/-- Python str.rstrip("/"): drop all trailing slashes. -/
def rstripSlash (s : String) : String :=
  String.mk (s.data.reverse.dropWhile fun c => c = '/').reverse

/-- Model of Python str.isnumeric restricted to ASCII digits: non-empty and
all digits. -/
def isNumericStr (s : String) : Bool := !s.data.isEmpty && s.data.all Char.isDigit

/-- Python int() conversion as the topic-info extraction uses it: succeeds on
non-empty all-digit strings, fails otherwise (ValueError). -/
def strToNat? (s : String) : Option Nat :=
  if isNumericStr s then some (digitsToNat s.data 0) else none

/-- _ValidationResultValid / _ValidationResultInvalid from src/discourse.py:
valid carries value True; invalid carries value False and a message. -/
inductive ValidationResult where
  | valid
  | invalid (message : String)
deriving DecidableEq, Repr

/-- The value field of a validation result. -/
def ValidationResult.value : ValidationResult → Bool
  | .valid => true
  | .invalid _ => false

/-- Discourse.topic_url_valid from src/discourse.py: the URL must start with
the configured base path or with "/t/"; its path, with trailing slashes
stripped and the leading empty component dropped, must have exactly three
components — the literal "t", a non-empty slug, and an all-digits topic
id. -/
def topic_url_valid (basePath url : String) : ValidationResult :=
  if ¬ (startsWithStr basePath url ∨ startsWithStr URL_PATH_START url) then
    .invalid "The base path is different to the expected base path"
  else
    let pathComponents := (splitSlash (rstripSlash (urlparse_path url))).drop 1
    if pathComponents.length ≠ 3 then
      .invalid "Unexpected number of path components"
    else if pathComponents.getD 0 "" ≠ "t" then
      .invalid "Unexpected first path component"
    else if pathComponents.getD 1 "" = "" then
      .invalid "Empty second path component topic slug"
    else if ¬ isNumericStr (pathComponents.getD 2 "") then
      .invalid "unexpected third path component topic id"
    else .valid

/-- _DiscourseTopicInfo from src/discourse.py: the slug and numeric id of a
topic. -/
structure DiscourseTopicInfo where
  slug : String
  id_ : Nat
deriving DecidableEq, Repr

/-- Discourse._url_to_topic_info from src/discourse.py: raises DiscourseError
(the invalid message) when the URL is not valid; otherwise the slug is the
second-to-last and the id the last component of the full (non-stripped) path
split; a last component that fails integer conversion is modelled as an
error as well (Python would raise ValueError there). -/
def _url_to_topic_info (basePath url : String) :
    Except String DiscourseTopicInfo :=
  match topic_url_valid basePath url with
  | .invalid m => .error m
  | .valid =>
    match (splitSlash (urlparse_path url)).reverse with
    | idStr :: slug :: _ =>
      match strToNat? idStr with
      | some n => .ok ⟨slug, n⟩
      | none => .error "ValueError: invalid literal for int"
    | _ => .error "IndexError: path too short"

/-- Discourse._topic_info_to_absolute_url from src/discourse.py. -/
def _topic_info_to_absolute_url (basePath : String) (ti : DiscourseTopicInfo) :
    String :=
  basePath ++ URL_PATH_START ++ ti.slug ++ "/" ++ toString ti.id_

/-- Discourse.absolute_url from src/discourse.py: derives the topic info
(raising a client error on an invalid URL) and rebuilds the absolute URL. -/
def absolute_url (basePath url : String) : Except String String :=
  (_url_to_topic_info basePath url).map (_topic_info_to_absolute_url basePath)

/-- The spec's validation rule (§6), written from its words: the URL starts
with the configured base path or with "/t/", and its path has exactly three
components where the first is the literal "t", the second a non-empty slug,
and the third all digits. -/
def specTopicUrlValid (basePath url : String) : Bool :=
  (startsWithStr basePath url || startsWithStr URL_PATH_START url) &&
    (match (splitSlash (rstripSlash (urlparse_path url))).drop 1 with
      | [c1, c2, c3] => c1 == "t" && !(c2 == "") && isNumericStr c3
      | _ => false)

/-- C9: topic_url_valid accepts a URL exactly when the spec's rule does, and
for any URL it rejects, absolute_url (which derives the topic info from the
URL) fails with the client error carrying the same message. -/
theorem topic_url_validation_rules (basePath url : String) :
    ((topic_url_valid basePath url).value = true ↔
      specTopicUrlValid basePath url = true) ∧
    (∀ m, topic_url_valid basePath url = .invalid m →
      absolute_url basePath url = .error m) := by
  constructor
  · unfold topic_url_valid specTopicUrlValid
    by_cases hstart : startsWithStr basePath url ∨ startsWithStr URL_PATH_START url
    · rw [if_neg (not_not_intro hstart)]
      rw [show (startsWithStr basePath url || startsWithStr URL_PATH_START url) = true
        from by rcases hstart with h | h <;> simp [h]]
      rw [Bool.true_and]
      rcases hcomp : (splitSlash (rstripSlash (urlparse_path url))).drop 1
        with _ | ⟨c1, _ | ⟨c2, _ | ⟨c3, _ | ⟨c4, rest⟩⟩⟩⟩ <;>
        simp only [hcomp]
      · simp [ValidationResult.value]
      · simp [ValidationResult.value]
      · simp [ValidationResult.value]
      · by_cases h1 : c1 = "t"
        · by_cases h2 : c2 = ""
          · simp [h1, h2, ValidationResult.value]
          · by_cases h3 : isNumericStr c3 = true
            · simp [h1, h2, h3, ValidationResult.value]
            · simp [h1, h2, h3, ValidationResult.value]
        · simp [h1, ValidationResult.value]
      · simp [ValidationResult.value]
    · rw [if_pos hstart]
      rw [show (startsWithStr basePath url || startsWithStr URL_PATH_START url) = false
        from by push_neg at hstart; simp [hstart.1, hstart.2]]
      simp [ValidationResult.value]
  · intro m hm
    unfold absolute_url _url_to_topic_info
    rw [hm]
    rfl

theorem topic_url_validation_rules_witness :
    absolute_url "https://host" "https://host/bad" =
      .error "Unexpected number of path components" :=
  (topic_url_validation_rules "https://host" "https://host/bad").2
    "Unexpected number of path components" rfl

/-- A call issued to the pydiscourse client during update_topic. -/
inductive PydiscourseCall where
  | topic (slug : String) (topicId : Nat)
  | updateTopicStatus (topicId : Nat) (status : String) (enabled : Bool)
  | updatePost (postId : Int) (content : String) (editReason : String)
deriving DecidableEq, Repr

/-- A post record as update_topic reads it: the post number, the
user_deleted flag and the post id; a `none` field models a missing or
wrongly-typed key, which _get_record_value turns into a client error. -/
structure DiscoursePost where
  postNumber : Nat
  userDeleted : Option Bool
  id : Option Int
deriving DecidableEq, Repr

/-- A topic record as update_topic reads it: the visible flag and the posts
of the post stream; a `none` visible models a missing or wrongly-typed
key. -/
structure DiscourseTopic where
  visible : Option Bool
  posts : List DiscoursePost
deriving DecidableEq, Repr

/-- Discourse._get_record_value from src/discourse.py: a missing or
wrongly-typed key raises a client error. -/
def _get_record_value {α : Type} (v : Option α) : Except String α :=
  match v with
  | some x => .ok x
  | none => .error "The documentation server returned unexpected data"

/-- Discourse._ensure_topic_default_config from src/discourse.py: read the
topic's visible flag and, when it is set, issue an update_topic_status call
turning visibility off.  The pydiscourse call is returned in the trace; its
own transport failure (wrapped into a client error by the source) is modelled
as success. -/
def _ensure_topic_default_config (topic : DiscourseTopic)
    (ti : DiscourseTopicInfo) : Except String (List PydiscourseCall) :=
  match _get_record_value topic.visible with
  | .error e => .error e
  | .ok visible =>
    if visible then .ok [.updateTopicStatus ti.id_ "visible" false]
    else .ok []

/-- Discourse._get_topic_first_post from src/discourse.py: the post with
post_number 1; a missing first post or a deleted topic raises a client
error. -/
def _get_topic_first_post (topic : DiscourseTopic) :
    Except String DiscoursePost :=
  match topic.posts.find? fun p => p.postNumber == 1 with
  | none => .error "The documentation server returned unexpected data"
  | some firstPost =>
    match _get_record_value firstPost.userDeleted with
    | .error e => .error e
    | .ok userDeleted =>
      if userDeleted then .error "topic has been deleted"
      else .ok firstPost

/-- Discourse.update_topic from src/discourse.py: derive the topic info from
the URL, retrieve the topic (`fetch` models self._client.topic keyed by slug
and id; its result is recorded as the first trace entry), apply the default
configuration (unlisting a visible topic), find the first post, and update it
(update_post is modelled as succeeding, with the call recorded).  Returns the
absolute URL and the ordered pydiscourse call trace. -/
def update_topic (basePath : String)
    (fetch : String → Nat → Except String DiscourseTopic)
    (url content editReason : String) :
    Except String (String × List PydiscourseCall) :=
  match _url_to_topic_info basePath url with
  | .error e => .error e
  | .ok ti =>
    match fetch ti.slug ti.id_ with
    | .error e => .error e
    | .ok topic =>
      match _ensure_topic_default_config topic ti with
      | .error e => .error e
      | .ok configCalls =>
        match _get_topic_first_post topic with
        | .error e => .error e
        | .ok firstPost =>
          match _get_record_value firstPost.id with
          | .error e => .error e
          | .ok postId =>
            match absolute_url basePath url with
            | .error e => .error e
            | .ok abs =>
              .ok (abs, [PydiscourseCall.topic ti.slug ti.id_] ++ configCalls ++
                [PydiscourseCall.updatePost postId content editReason])

/-- C10: Every successful update_topic call first fetches the topic, and its
pydiscourse call trace is exactly the fetch, then — exactly when the fetched
topic's visible flag is true — an update_topic_status call setting visible to
false, and then the update of the first post; so updating a document's
content unlists a currently visible topic before the post update. -/
theorem update_topic_unlists_visible (basePath : String)
    (fetch : String → Nat → Except String DiscourseTopic)
    (url content editReason : String) (r : String × List PydiscourseCall)
    (hok : update_topic basePath fetch url content editReason = .ok r) :
    ∃ ti topic postId,
      _url_to_topic_info basePath url = .ok ti ∧
      fetch ti.slug ti.id_ = .ok topic ∧
      r.2 = [PydiscourseCall.topic ti.slug ti.id_] ++
        (if topic.visible = some true then
          [.updateTopicStatus ti.id_ "visible" false]
        else []) ++
        [.updatePost postId content editReason] := by
  unfold update_topic at hok
  rcases hti : _url_to_topic_info basePath url with e | ti <;> rw [hti] at hok
  · cases hok
  · simp only [] at hok
    rcases hfetch : fetch ti.slug ti.id_ with e | topic <;> rw [hfetch] at hok
    · cases hok
    · simp only [] at hok
      rcases hconf : _ensure_topic_default_config topic ti with e | configCalls <;>
        rw [hconf] at hok
      · cases hok
      · simp only [] at hok
        rcases hfirst : _get_topic_first_post topic with e | firstPost <;>
          rw [hfirst] at hok
        · cases hok
        · simp only [] at hok
          rcases hid : _get_record_value firstPost.id with e | postId <;>
            rw [hid] at hok
          · cases hok
          · simp only [] at hok
            rcases habs : absolute_url basePath url with e | abs <;>
              rw [habs] at hok
            · cases hok
            · cases hok
              refine ⟨ti, topic, postId, rfl, hfetch, ?_⟩
              unfold _ensure_topic_default_config at hconf
              rcases hvis : topic.visible with _ | b <;> rw [hvis] at hconf
              · cases hconf
              · rcases b with _ | _
                · simp only [_get_record_value, Bool.false_eq_true, if_false,
                    Except.ok.injEq] at hconf
                  subst hconf
                  simp [hvis]
                · simp only [_get_record_value, if_true, Except.ok.injEq] at hconf
                  subst hconf
                  simp [hvis]

theorem update_topic_unlists_visible_witness :
    ∃ ti topic postId,
      _url_to_topic_info "https://host" "https://host/t/slug/42" = .ok ti ∧
      (fun (_ : String) (_ : Nat) =>
        (.ok ⟨some true, [⟨1, some false, some 5⟩]⟩ :
          Except String DiscourseTopic)) ti.slug ti.id_ = .ok topic ∧
      ([PydiscourseCall.topic "slug" 42,
        PydiscourseCall.updateTopicStatus 42 "visible" false,
        PydiscourseCall.updatePost 5 "content 1" "edit reason 1"] :
          List PydiscourseCall) =
        [PydiscourseCall.topic ti.slug ti.id_] ++
          (if topic.visible = some true then
            [.updateTopicStatus ti.id_ "visible" false]
          else []) ++
          [.updatePost postId "content 1" "edit reason 1"] :=
  update_topic_unlists_visible "https://host"
    (fun _ _ => .ok ⟨some true, [⟨1, some false, some 5⟩]⟩)
    "https://host/t/slug/42" "content 1" "edit reason 1"
    ("https://host/t/slug/42",
      [PydiscourseCall.topic "slug" 42,
        PydiscourseCall.updateTopicStatus 42 "visible" false,
        PydiscourseCall.updatePost 5 "content 1" "edit reason 1"]) rfl

end UploadCharmDocs
